import Mathlib

/-!
Social network backend: post content derivation, content validation, and
room-based event fan-out.

Shallow embedding of `src/server/models/Post.js` (the `content` schema path,
`extractHashtags`, `extractMentions`, the `pre('save')` hook) and of
`src/server/server.js` (the socket handlers `join`, `new-post`,
`send-notification`, `send-message`, `disconnect`).
-/

namespace SocialNetwork

/-! ## JavaScript strings -/

/-- A JavaScript string, as the sequence of its UTF-16 code units. `length`,
`substring`, `trim` and a regular expression without the `u` flag all work on
code units. -/
abbrev JsString := List Nat

/-- The code units of a literal whose characters all lie in the Basic
Multilingual Plane. -/
def lit (s : String) : JsString := s.toList.map Char.toNat

/-- The regular-expression class `\w` (no `i`, no `u` flag): `[A-Za-z0-9_]`. -/
def isWordChar (c : Nat) : Bool :=
  (65 ≤ c && c ≤ 90) || (97 ≤ c && c ≤ 122) || (48 ≤ c && c ≤ 57) || c == 95

/-- Lowercasing of one code unit, on the ASCII range: `A`..`Z` go to `a`..`z`,
every other unit is kept. -/
def lowerUnit (c : Nat) : Nat := if 65 ≤ c ∧ c ≤ 90 then c + 32 else c

/-- `String.prototype.toLowerCase`, exact on strings of ASCII code units (the
only strings the extraction methods apply it to are runs of `\w`). -/
def toLowerCase (s : JsString) : JsString := s.map lowerUnit

/-- `s.substring(1)`. -/
def substring1 (s : JsString) : JsString := s.drop 1

/-- The code unit of `#`. -/
def hashMark : Nat := 35

/-- The code unit of `@`. -/
def atMark : Nat := 64

/-! ## Matching `/m[\w]+/g` -/

/-- The match loop of `String.prototype.match` with the global pattern
`/m[\w]+/g`, `m` a literal code unit: at the current index, the pattern matches
when the unit is `m` and at least one `\w` unit follows; `[\w]+` is greedy, so
the match takes the whole run, and the search resumes at the end of the match.
Otherwise the search moves on by one unit. `fuel` bounds the number of
iterations; the length of the string is always enough
(see `matchLoop_fuel`). -/
def matchLoop (m : Nat) : Nat → JsString → List JsString
  | 0, _ => []
  | _ + 1, [] => []
  | fuel + 1, c :: rest =>
    if c = m ∧ rest.takeWhile isWordChar ≠ [] then
      (c :: rest.takeWhile isWordChar) :: matchLoop m fuel (rest.dropWhile isWordChar)
    else
      matchLoop m fuel rest

/-- `s.match(/m[\w]+/g)`: the array of all matches, or `null` (`none`) when
there is none. -/
def jsMatch (m : Nat) (s : JsString) : Option (List JsString) :=
  match matchLoop m s.length s with
  | [] => none
  | ms => some ms

/-- The body shared by `extractHashtags` and `extractMentions` once
`this.content` is a string:
`(content.match(/m[\w]+/g) || []).map(t => t.substring(1).toLowerCase())`. -/
def extractTokens (m : Nat) (content : JsString) : List JsString :=
  ((jsMatch m content).getD []).map (fun tag => toLowerCase (substring1 tag))

/-! ## The Post document -/

/-- Errors raised by the modelled code. -/
inductive JsError where
  | typeError
  | validationError (message : String)
  deriving DecidableEq, Repr

/-- Equality of results is decidable, so that a run can be compared with its
expected outcome. -/
instance instDecidableEqExcept {ε α : Type} [DecidableEq ε] [DecidableEq α] :
    DecidableEq (Except ε α)
  | .ok a, .ok b =>
    if h : a = b then isTrue (by rw [h]) else isFalse (fun h2 => h (by cases h2; rfl))
  | .error a, .error b =>
    if h : a = b then isTrue (by rw [h]) else isFalse (fun h2 => h (by cases h2; rfl))
  | .ok _, .error _ => isFalse (fun h => by cases h)
  | .error _, .ok _ => isFalse (fun h => by cases h)

/-- An entry of `mentions`: `{ user: ObjectId, username: String }`. -/
structure Mention where
  user : Option Nat
  username : Option JsString
  deriving DecidableEq, Repr

/-- An entry of `likes` or `shares`: `{ user: ObjectId, createdAt: Date }`. -/
structure Engagement where
  user : Nat
  createdAt : Nat
  deriving DecidableEq, Repr

/-- An entry of `images`: `{ url, publicId, caption }`. -/
structure Image where
  url : Option String
  publicId : Option String
  caption : Option String
  deriving DecidableEq, Repr

/-- The `location` path: `{ name, coordinates: [longitude, latitude] }`; the
two numbers are carried as given and never computed with. -/
structure Location where
  name : Option String
  coordinates : List Int
  deriving DecidableEq, Repr

/-- A Post document. `content` is `none` when the path is `undefined` or
`null`. `createdAt` and `updatedAt` come from `timestamps: true`.
`contentModified` is what `this.isModified('content')` returns. -/
structure Post where
  content : Option JsString
  author : Nat
  images : List Image
  likes : List Engagement
  comments : List Nat
  shares : List Engagement
  hashtags : List JsString
  mentions : List Mention
  location : Option Location
  privacy : String
  isEdited : Bool
  editedAt : Option Nat
  isActive : Bool
  reportCount : Nat
  createdAt : Option Nat
  updatedAt : Option Nat
  contentModified : Bool
  deriving DecidableEq, Repr

/-- `postSchema.methods.extractHashtags`. Reading `.match` of an absent
`this.content` throws a `TypeError`. -/
def extractHashtags (p : Post) : Except JsError (List JsString) :=
  match p.content with
  | none => .error .typeError
  | some content => .ok (extractTokens hashMark content)

/-- `postSchema.methods.extractMentions`. -/
def extractMentions (p : Post) : Except JsError (List JsString) :=
  match p.content with
  | none => .error .typeError
  | some content => .ok (extractTokens atMark content)

/-- Assignment to the `hashtags` path: the schema declares the elements as
`{ type: String, lowercase: true }`, so each assigned element goes through the
lowercase setter. The hook assigns only runs of `\w`, on which the setter is
the ASCII lowercasing of `toLowerCase`. -/
def castHashtags (tags : List JsString) : List JsString := tags.map toLowerCase

/-- The hook `postSchema.pre('save', ...)`: when `content` is modified,
`this.hashtags = this.extractHashtags()`; nothing else is assigned. -/
def preSave (p : Post) : Except JsError Post :=
  if p.contentModified then
    match extractHashtags p with
    | .error e => .error e
    | .ok tags => .ok { p with hashtags := castHashtags tags }
  else
    .ok p

/-- The text of the scenario `Hello #World and @bob, check #world!`. -/
def scenarioText : JsString := lit "Hello #World and @bob, check #world!"

/-- Exchange of the two markers: every `@` becomes `#` and every `#` becomes
`@`; other code units are kept. -/
def swapMarkers (s : JsString) : JsString :=
  s.map (fun c => if c = atMark then hashMark else if c = hashMark then atMark else c)

/-! ### Positional description of the tokens

The definitions of this section follow the words of the claims on the
extraction methods, not the code: they say where in the text the tokens are. -/

/-- The indices `i` of `T` that hold the marker `m` and are immediately
followed by a word character, in increasing order. -/
def tokenStarts (m : Nat) (T : JsString) : List Nat :=
  (List.range T.length).filter (fun i => T[i]? == some m && (T[i + 1]?).any isWordChar)

/-- The longest run of word characters of `T` that starts at index `i + 1`. -/
def runAfter (T : JsString) (i : Nat) : JsString := (T.drop (i + 1)).takeWhile isWordChar

/-- The tokens read off one position at a time: a match at every position that
holds `m` and is followed by a word character, with no jump to the end of a
match (used to relate `matchLoop` to `tokenStarts`). -/
def scanTokens (m : Nat) : JsString → List JsString
  | [] => []
  | c :: rest =>
    if c = m ∧ rest.takeWhile isWordChar ≠ [] then
      (c :: rest.takeWhile isWordChar) :: scanTokens m rest
    else scanTokens m rest

/-! ## Validation of the `content` path -/

/-- White space and line terminators, the code units `String.prototype.trim`
removes. -/
def isWhiteSpace (c : Nat) : Bool :=
  c == 9 || c == 10 || c == 11 || c == 12 || c == 13 || c == 32 || c == 160 ||
  c == 5760 || (8192 ≤ c && c ≤ 8202) || c == 8232 || c == 8233 || c == 8239 ||
  c == 8287 || c == 12288 || c == 65279

/-- `String.prototype.trim`. -/
def trim (s : JsString) : JsString :=
  ((s.dropWhile isWhiteSpace).reverse.dropWhile isWhiteSpace).reverse

/-- The setter of `trim: true`: a string value is trimmed when it is assigned
to the path; an absent value stays absent. -/
def setContent (v : Option JsString) : Option JsString := v.map trim

/-- A document as `new Post({ author, content })` builds it, `none` standing for
a call without a `content` key: a given string goes through the `trim` setter
and marks the path modified; the other paths get the schema defaults. -/
def newPost (author : Nat) (content : Option JsString) : Post :=
  { content := setContent content, author := author, images := [], likes := [], comments := []
    shares := [], hashtags := [], mentions := [], location := none, privacy := "public"
    isEdited := false, editedAt := none, isActive := true, reportCount := 0
    createdAt := none, updatedAt := none, contentModified := content.isSome }

/-- The validator of `required: [true, 'Post content is required']` on a
String path: the value must be a string of non-zero length. -/
def checkRequired : Option JsString → Bool
  | none => false
  | some s => s.length != 0

/-- The validator of `maxlength: [2000, ...]`: an absent value passes,
a string passes when `length <= 2000`. -/
def checkMaxlength (limit : Nat) : Option JsString → Bool
  | none => true
  | some s => s.length ≤ limit

/-- Validation of a stored `content` value: `required` first, then
`maxlength`. -/
def validateContent (v : Option JsString) : Except JsError JsString :=
  match v with
  | none => .error (.validationError "Post content is required")
  | some s =>
    if !checkRequired (some s) then .error (.validationError "Post content is required")
    else if !checkMaxlength 2000 (some s) then
      .error (.validationError "Post content cannot exceed 2000 characters")
    else .ok s

/-- What the schema does with a content value given by a caller: the `trim`
setter on assignment, then the validators. -/
def acceptContent (raw : Option JsString) : Except JsError JsString :=
  validateContent (setContent raw)

/-! ## The socket server -/

/-- A room name. `socket.join(userId)` and `io.to(userId)` use the user id as
the name of the user's personal room. -/
abbrev Room := String

/-- The id of a socket (`socket.id`). -/
abbrev SocketId := String

/-- A payload carried by an event, kept as received. -/
abbrev Payload := String

/-- The argument of `send-notification`: `{ userId, notification }`. -/
structure NotificationData where
  userId : Room
  notification : Payload
  deriving DecidableEq, Repr

/-- The argument of `send-message`: an object with a `receiverId`. -/
structure MessageData where
  receiverId : Room
  body : Payload
  deriving DecidableEq, Repr

/-- What the server emits: the event name with its payload. -/
inductive Emitted where
  | postCreated (postData : Payload)
  | notification (notification : Payload)
  | newMessage (messageData : MessageData)
  deriving DecidableEq, Repr

/-- The event name of an emitted event. -/
def Emitted.eventName : Emitted → String
  | .postCreated _ => "post-created"
  | .notification _ => "notification"
  | .newMessage _ => "new-message"

/-- One packet handed to one socket. -/
structure Delivery where
  target : SocketId
  event : Emitted
  deriving DecidableEq, Repr

/-- A connected socket with `socket.rooms`, the set of rooms it is in. -/
structure Socket where
  id : SocketId
  rooms : List Room
  deriving DecidableEq, Repr

/-- The server `io`: its connected sockets. -/
structure Server where
  sockets : List Socket
  deriving DecidableEq, Repr

/-- The events a client sends, one per `socket.on` handler. -/
inductive ClientEvent where
  | join (userId : Room)
  | newPost (postData : Payload)
  | sendNotification (data : NotificationData)
  | sendMessage (messageData : MessageData)
  deriving DecidableEq, Repr

/-- What the transport hands to the server. -/
inductive Input where
  | connect (id : SocketId)
  | event (sender : SocketId) (e : ClientEvent)
  | disconnect (id : SocketId)
  deriving DecidableEq, Repr

/-- The server right after `socketIo(server, ...)`: no socket. -/
def Server.init : Server := { sockets := [] }

/-- Whether a socket with this id is connected. -/
def Server.isLive (st : Server) (c : SocketId) : Bool :=
  st.sockets.any (fun s => s.id == c)

/-- Whether the connected socket `c` is in room `r`. -/
def Server.inRoom (st : Server) (c : SocketId) (r : Room) : Bool :=
  st.sockets.any (fun s => s.id == c && decide (r ∈ s.rooms))

/-- `socket.join(room)`: `socket.rooms` is a set, the room is added when it is
not there yet; no room is removed. -/
def Socket.join (s : Socket) (r : Room) : Socket :=
  if r ∈ s.rooms then s else { s with rooms := s.rooms ++ [r] }

/-- `io.to(room).emit(...)`: one packet for each connected socket that is in
the room. -/
def Server.emitTo (st : Server) (r : Room) (ev : Emitted) : List Delivery :=
  (st.sockets.filter (fun s => decide (r ∈ s.rooms))).map (fun s => { target := s.id, event := ev })

/-- `socket.broadcast.emit(...)`: one packet for each connected socket other
than the sender. -/
def Server.broadcastFrom (st : Server) (sender : SocketId) (ev : Emitted) : List Delivery :=
  (st.sockets.filter (fun s => s.id != sender)).map (fun s => { target := s.id, event := ev })

/-- The handlers registered in `io.on('connection', ...)`, run for an event of
a connected socket. -/
def Server.handle (st : Server) (sender : SocketId) : ClientEvent → Server × List Delivery
  | .join userId =>
    ({ sockets := st.sockets.map (fun s => if s.id = sender then s.join userId else s) }, [])
  | .newPost postData => (st, st.broadcastFrom sender (.postCreated postData))
  | .sendNotification data => (st, st.emitTo data.userId (.notification data.notification))
  | .sendMessage messageData => (st, st.emitTo messageData.receiverId (.newMessage messageData))

/-- One step of the server. A new socket starts in the room named by its own
id (socket.io puts every socket there on connection); socket ids are unique,
so a `connect` with the id of a connected socket does not occur and is
ignored. Events of a socket that is not connected have no handler. On
`disconnect` the socket leaves all its rooms and is dropped. -/
def Server.step (st : Server) : Input → Server × List Delivery
  | .connect id =>
    if st.isLive id then (st, [])
    else ({ sockets := st.sockets ++ [{ id := id, rooms := [id] }] }, [])
  | .event sender e => if st.isLive sender then st.handle sender e else (st, [])
  | .disconnect id => ({ sockets := st.sockets.filter (fun s => s.id != id) }, [])

/-- The server after a history of inputs, oldest first. -/
def Server.after (history : List Input) : Server :=
  history.foldl (fun st i => (st.step i).1) Server.init

/-! ### Membership read off the history

The two functions below follow the words of the specification, not the code:
they read a history newest first. -/

/-- Whether connection `c` is live after the history `h` (newest input
first): it connected and has not disconnected since. -/
def specLive (c : SocketId) : List Input → Bool
  | [] => false
  | .connect id :: h => id == c || specLive c h
  | .disconnect id :: h => id != c && specLive c h
  | .event _ _ :: h => specLive c h

/-- Whether connection `c` has joined room `r` after the history `h` (newest
input first): while live it handled a `join` event for `r`, and it has not
disconnected since. Only `join` events count; the room a socket is put in on
connection does not. -/
def specJoined (c : SocketId) (r : Room) : List Input → Bool
  | [] => false
  | .connect _ :: h => specJoined c r h
  | .disconnect id :: h => id != c && specJoined c r h
  | .event sender (.join userId) :: h =>
    (sender == c && userId == r && specLive c h) || specJoined c r h
  | .event _ _ :: h => specJoined c r h

/-! ## Lemmas on the match loop -/

theorem isWordChar_hashMark : isWordChar hashMark = false := by decide

theorem isWordChar_atMark : isWordChar atMark = false := by decide

theorem scanTokens_dropWhile (m : Nat) (hm : isWordChar m = false) (s : JsString) :
    scanTokens m (s.dropWhile isWordChar) = scanTokens m s := by
  induction s with
  | nil => rfl
  | cons c rest ih =>
    by_cases hc : isWordChar c = true
    · have hcm : c ≠ m := by rintro rfl; simp [hm] at hc
      rw [List.dropWhile_cons_of_pos hc, ih]
      simp [scanTokens, hcm]
    · rw [List.dropWhile_cons_of_neg hc]

theorem matchLoop_eq_scanTokens (m : Nat) (hm : isWordChar m = false) :
    ∀ (fuel : Nat) (s : JsString), s.length ≤ fuel → matchLoop m fuel s = scanTokens m s := by
  intro fuel
  induction fuel with
  | zero =>
    intro s hs
    have : s = [] := List.length_eq_zero.mp (Nat.le_zero.mp hs)
    subst this; rfl
  | succ n ih =>
    intro s hs
    cases s with
    | nil => rfl
    | cons c rest =>
      have hr : rest.length ≤ n := by simpa using hs
      have hd : (rest.dropWhile isWordChar).length ≤ n :=
        le_trans (List.dropWhile_sublist _).length_le hr
      simp only [matchLoop, scanTokens]
      split
      · rw [ih _ hd, scanTokens_dropWhile m hm]
      · exact ih _ hr

/-- The length of the string is enough fuel: more fuel gives the same
matches. -/
theorem matchLoop_fuel (m : Nat) (hm : isWordChar m = false) (fuel : Nat) (s : JsString)
    (h : s.length ≤ fuel) : matchLoop m fuel s = matchLoop m s.length s := by
  rw [matchLoop_eq_scanTokens m hm fuel s h, matchLoop_eq_scanTokens m hm s.length s le_rfl]

theorem jsMatch_getD (m : Nat) (s : JsString) :
    (jsMatch m s).getD [] = matchLoop m s.length s := by
  unfold jsMatch
  split
  · next h => simp [h]
  · simp

theorem takeWhile_ne_nil_iff (s : JsString) :
    s.takeWhile isWordChar ≠ [] ↔ (s[0]?).any isWordChar = true := by
  cases s with
  | nil => simp
  | cons c rest =>
    by_cases hc : isWordChar c = true
    · simp [List.takeWhile_cons_of_pos hc, hc]
    · simp [List.takeWhile_cons_of_neg hc, hc]

theorem tokenStarts_cons (m c : Nat) (rest : JsString) :
    tokenStarts m (c :: rest) =
      if c = m ∧ (rest[0]?).any isWordChar = true then 0 :: (tokenStarts m rest).map Nat.succ
      else (tokenStarts m rest).map Nat.succ := by
  unfold tokenStarts
  rw [List.length_cons, List.range_succ_eq_map, List.filter_cons, List.filter_map]
  have h1 : ((fun i => (c :: rest)[i]? == some m && ((c :: rest)[i + 1]?).any isWordChar) ∘ Nat.succ)
      = (fun i => rest[i]? == some m && (rest[i + 1]?).any isWordChar) := by
    funext i; simp
  rw [h1]
  by_cases hc : c = m ∧ (rest[0]?).any isWordChar = true
  · rw [if_pos hc, if_pos (by simp [hc.1, hc.2])]
  · rw [if_neg hc, if_neg (by simpa using hc)]

theorem scanTokens_eq_map (m : Nat) (T : JsString) :
    scanTokens m T = (tokenStarts m T).map (fun i => m :: runAfter T i) := by
  induction T with
  | nil => rfl
  | cons c rest ih =>
    have h2 : ((fun i => m :: runAfter (c :: rest) i) ∘ Nat.succ) = (fun i => m :: runAfter rest i) := by
      funext i; simp [runAfter]
    rw [tokenStarts_cons]
    simp only [scanTokens, takeWhile_ne_nil_iff]
    by_cases hc : c = m ∧ (rest[0]?).any isWordChar = true
    · rw [if_pos hc, if_pos hc, List.map_cons, List.map_map, h2, ih]
      simp [runAfter, hc.1]
    · rw [if_neg hc, if_neg hc, List.map_map, h2, ih]

/-- The extracted tokens, position by position. -/
theorem extractTokens_eq_map (m : Nat) (hm : isWordChar m = false) (T : JsString) :
    extractTokens m T = (tokenStarts m T).map (fun i => toLowerCase (runAfter T i)) := by
  unfold extractTokens
  rw [jsMatch_getD, matchLoop_eq_scanTokens m hm _ _ le_rfl, scanTokens_eq_map, List.map_map]
  rfl

theorem mem_tokenStarts (m : Nat) (T : JsString) (i : Nat) :
    i ∈ tokenStarts m T ↔ T[i]? = some m ∧ (T[i + 1]?).any isWordChar = true := by
  unfold tokenStarts
  rw [List.mem_filter, List.mem_range]
  constructor
  · rintro ⟨_, h⟩
    simpa using h
  · intro h
    refine ⟨?_, by simpa using h⟩
    by_contra hlt
    rw [List.getElem?_eq_none (by omega)] at h
    exact absurd h.1 (by simp)

theorem any_getElem?_takeWhile_length (s : JsString) :
    (s[(s.takeWhile isWordChar).length]?).any isWordChar = false := by
  induction s with
  | nil => rfl
  | cons c rest ih =>
    by_cases hc : isWordChar c = true
    · rw [List.takeWhile_cons_of_pos hc]
      simpa using ih
    · rw [List.takeWhile_cons_of_neg hc]
      simpa using hc

theorem take_length_takeWhile (s : JsString) :
    s.take (s.takeWhile isWordChar).length = s.takeWhile isWordChar := by
  induction s with
  | nil => rfl
  | cons c rest ih =>
    by_cases hc : isWordChar c = true
    · rw [List.takeWhile_cons_of_pos hc]
      simp [ih]
    · rw [List.takeWhile_cons_of_neg hc]
      rfl

theorem lowerUnit_props (c : Nat) (h : isWordChar c = true) :
    isWordChar (lowerUnit c) = true ∧ ¬ (65 ≤ lowerUnit c ∧ lowerUnit c ≤ 90) ∧
      lowerUnit c ≠ hashMark ∧ lowerUnit c ≠ atMark := by
  unfold isWordChar at h
  simp only [Bool.or_eq_true, Bool.and_eq_true, decide_eq_true_eq, beq_iff_eq] at h
  unfold lowerUnit isWordChar hashMark atMark
  split
  · simp only [Bool.or_eq_true, Bool.and_eq_true, decide_eq_true_eq, beq_iff_eq]; omega
  · simp only [Bool.or_eq_true, Bool.and_eq_true, decide_eq_true_eq, beq_iff_eq]; omega

theorem lowerUnit_idem (c : Nat) : lowerUnit (lowerUnit c) = lowerUnit c := by
  unfold lowerUnit
  split
  · rw [if_neg (by omega)]
  · rfl

theorem toLowerCase_idem (s : JsString) : toLowerCase (toLowerCase s) = toLowerCase s := by
  unfold toLowerCase
  rw [List.map_map]
  exact List.map_congr_left (fun c _ => lowerUnit_idem c)

theorem castHashtags_extractTokens (m : Nat) (T : JsString) :
    castHashtags (extractTokens m T) = extractTokens m T := by
  unfold castHashtags extractTokens
  rw [List.map_map]
  exact List.map_congr_left (fun t _ => toLowerCase_idem _)

theorem runAfter_word (T : JsString) (i : Nat) : ∀ c ∈ runAfter T i, isWordChar c = true :=
  fun _ hc => (List.mem_takeWhile_imp hc)

theorem takeWhile_swapMarkers (s : JsString) :
    (swapMarkers s).takeWhile isWordChar = s.takeWhile isWordChar := by
  induction s with
  | nil => rfl
  | cons c rest ih =>
    have ih2 : List.takeWhile isWordChar (List.map
        (fun c => if c = atMark then hashMark else if c = hashMark then atMark else c) rest)
        = List.takeWhile isWordChar rest := ih
    unfold swapMarkers
    rw [List.map_cons]
    by_cases h1 : c = atMark
    · subst h1
      rw [if_pos rfl, List.takeWhile_cons_of_neg (by decide), List.takeWhile_cons_of_neg (by decide)]
    · by_cases h2 : c = hashMark
      · subst h2
        rw [if_neg h1, if_pos rfl, List.takeWhile_cons_of_neg (by decide),
          List.takeWhile_cons_of_neg (by decide)]
      · rw [if_neg h1, if_neg h2]
        by_cases hc : isWordChar c = true
        · rw [List.takeWhile_cons_of_pos hc, List.takeWhile_cons_of_pos hc, ih2]
        · rw [List.takeWhile_cons_of_neg hc, List.takeWhile_cons_of_neg hc]

theorem scanTokens_swapMarkers (s : JsString) :
    (scanTokens hashMark (swapMarkers s)).map substring1 = (scanTokens atMark s).map substring1 := by
  induction s with
  | nil => rfl
  | cons c rest ih =>
    have hsw : swapMarkers (c :: rest) =
        (if c = atMark then hashMark else if c = hashMark then atMark else c) :: swapMarkers rest := rfl
    rw [hsw]
    simp only [scanTokens, takeWhile_swapMarkers]
    by_cases h1 : c = atMark
    · subst h1
      rw [if_pos rfl]
      by_cases hr : List.takeWhile isWordChar rest ≠ []
      · rw [if_pos ⟨rfl, hr⟩, if_pos ⟨rfl, hr⟩, List.map_cons, List.map_cons, ih]
        rfl
      · rw [if_neg (fun h => hr h.2), if_neg (fun h => hr h.2), ih]
    · by_cases h2 : c = hashMark
      · subst h2
        rw [if_neg h1, if_pos rfl, if_neg (fun h => absurd h.1 (by decide)),
          if_neg (fun h => h1 h.1), ih]
      · rw [if_neg h1, if_neg h2, if_neg (fun h => h2 h.1), if_neg (fun h => h1 h.1), ih]

theorem extractTokens_swapMarkers (T : JsString) :
    extractTokens atMark T = extractTokens hashMark (swapMarkers T) := by
  have hmap : ∀ l : List JsString,
      l.map (fun tag => toLowerCase (substring1 tag)) = (l.map substring1).map toLowerCase := by
    intro l; rw [List.map_map]; rfl
  unfold extractTokens
  rw [jsMatch_getD, jsMatch_getD, matchLoop_eq_scanTokens atMark isWordChar_atMark _ _ le_rfl,
    matchLoop_eq_scanTokens hashMark isWordChar_hashMark _ _ le_rfl, hmap, hmap,
    scanTokens_swapMarkers]

theorem extractTokens_nil (m : Nat) : extractTokens m [] = [] := rfl

theorem dropWhile_replicate_of_neg (n c : Nat) (h : isWhiteSpace c = false) :
    (List.replicate n c).dropWhile isWhiteSpace = List.replicate n c := by
  cases n with
  | zero => rfl
  | succ k => rw [List.replicate_succ, List.dropWhile_cons_of_neg (by simp [h])]

theorem trim_replicate (n c : Nat) (h : isWhiteSpace c = false) :
    trim (List.replicate n c) = List.replicate n c := by
  unfold trim
  rw [dropWhile_replicate_of_neg n c h, List.reverse_replicate, dropWhile_replicate_of_neg n c h,
    List.reverse_replicate]

theorem acceptContent_some (T : JsString) :
    acceptContent (some T) =
      if (trim T).length = 0 then .error (.validationError "Post content is required")
      else if 2000 < (trim T).length then
        .error (.validationError "Post content cannot exceed 2000 characters")
      else .ok (trim T) := by
  unfold acceptContent setContent validateContent checkRequired checkMaxlength
  simp only [Option.map_some']
  by_cases h0 : (trim T).length = 0
  · simp [h0]
  · by_cases h1 : 2000 < (trim T).length
    · simp [h0, h1]
    · simp [h0, h1, Nat.le_of_not_lt h1]

/-! ## Lemmas on the socket server -/

theorem Server.isLive_iff (st : Server) (c : SocketId) :
    st.isLive c = true ↔ ∃ s ∈ st.sockets, s.id = c := by
  simp [Server.isLive]

theorem Server.inRoom_iff (st : Server) (c : SocketId) (r : Room) :
    st.inRoom c r = true ↔ ∃ s ∈ st.sockets, s.id = c ∧ r ∈ s.rooms := by
  simp [Server.inRoom]

theorem Server.isLive_of_inRoom (st : Server) (c : SocketId) (r : Room)
    (h : st.inRoom c r = true) : st.isLive c = true := by
  obtain ⟨s, hs, hid, _⟩ := (st.inRoom_iff c r).mp h
  exact (st.isLive_iff c).mpr ⟨s, hs, hid⟩

theorem Socket.join_id (s : Socket) (r : Room) : (s.join r).id = s.id := by
  unfold Socket.join
  split <;> rfl

theorem Socket.mem_join_rooms (s : Socket) (u r : Room) :
    r ∈ (s.join u).rooms ↔ r ∈ s.rooms ∨ r = u := by
  unfold Socket.join
  split
  · next h =>
    constructor
    · exact Or.inl
    · rintro (h1 | rfl)
      · exact h1
      · exact h
  · simp

theorem Server.after_concat (h : List Input) (i : Input) :
    Server.after (h ++ [i]) = ((Server.after h).step i).1 := by
  simp [Server.after, List.foldl_append]

theorem Server.step_connect (st : Server) (id : SocketId) :
    st.step (.connect id) =
      if st.isLive id then (st, [])
      else ({ sockets := st.sockets ++ [{ id := id, rooms := [id] }] }, []) := rfl

theorem Server.step_disconnect (st : Server) (id : SocketId) :
    st.step (.disconnect id) = ({ sockets := st.sockets.filter (fun s => s.id != id) }, []) := rfl

theorem Server.step_event (st : Server) (sender : SocketId) (e : ClientEvent) :
    st.step (.event sender e) = if st.isLive sender then st.handle sender e else (st, []) := rfl

theorem Server.step_join_live (st : Server) (sender : SocketId) (u : Room)
    (h : st.isLive sender = true) :
    (st.step (.event sender (.join u))).1 =
      { sockets := st.sockets.map (fun s => if s.id = sender then s.join u else s) } := by
  rw [Server.step_event, if_pos h]; rfl

theorem Server.step_event_dead (st : Server) (sender : SocketId) (e : ClientEvent)
    (h : ¬ st.isLive sender = true) : st.step (.event sender e) = (st, []) := by
  rw [Server.step_event, if_neg h]

theorem Server.step_event_state (st : Server) (sender : SocketId) (e : ClientEvent)
    (hne : ∀ u, e ≠ .join u) : (st.step (.event sender e)).1 = st := by
  rw [Server.step_event]
  split
  · cases e with
    | join u => exact absurd rfl (hne u)
    | newPost _ => rfl
    | sendNotification _ => rfl
    | sendMessage _ => rfl
  · rfl

theorem Server.join_map_id (sender : SocketId) (u : Room) :
    ((fun s : Socket => s.id) ∘ fun s => if s.id = sender then s.join u else s)
      = fun s => s.id := by
  funext s
  simp only [Function.comp]
  split
  · exact Socket.join_id s u
  · rfl

/-- The ids of the connected sockets stay pairwise distinct. -/
theorem Server.step_nodup (st : Server) (i : Input)
    (h : (st.sockets.map (fun s => s.id)).Nodup) :
    (((st.step i).1).sockets.map (fun s => s.id)).Nodup := by
  cases i with
  | connect id =>
    rw [Server.step_connect]
    by_cases hl : st.isLive id = true
    · rw [if_pos hl]; exact h
    · rw [if_neg hl]
      simp only [List.map_append, List.map_cons, List.map_nil]
      rw [List.nodup_append]
      refine ⟨h, List.nodup_singleton _, ?_⟩
      intro a ha hb
      rw [List.mem_singleton] at hb
      subst hb
      obtain ⟨s, hs, hid⟩ := List.mem_map.mp ha
      exact hl ((st.isLive_iff _).mpr ⟨s, hs, hid⟩)
  | disconnect id =>
    rw [Server.step_disconnect]
    exact (List.Nodup.sublist ((List.filter_sublist _).map _) h)
  | event sender e =>
    cases e with
    | join u =>
      by_cases hl : st.isLive sender = true
      · rw [Server.step_join_live _ _ _ hl]
        simp only [List.map_map]
        rw [Server.join_map_id]; exact h
      · rw [Server.step_event_dead _ _ _ hl]; exact h
    | newPost _ => rw [Server.step_event_state _ _ _ (by intro u hu; cases hu)]; exact h
    | sendNotification _ => rw [Server.step_event_state _ _ _ (by intro u hu; cases hu)]; exact h
    | sendMessage _ => rw [Server.step_event_state _ _ _ (by intro u hu; cases hu)]; exact h

theorem Server.after_nodup (h : List Input) :
    ((Server.after h).sockets.map (fun s => s.id)).Nodup := by
  induction h using List.reverseRecOn with
  | nil => exact List.nodup_nil
  | append_singleton h i ih => rw [Server.after_concat]; exact Server.step_nodup _ _ ih

theorem Server.isLive_connect (st : Server) (id c : SocketId) :
    ((st.step (.connect id)).1).isLive c = (id == c || st.isLive c) := by
  rw [Bool.eq_iff_iff, Server.step_connect]
  by_cases hl : st.isLive id = true
  · rw [if_pos hl]
    simp only [Bool.or_eq_true, beq_iff_eq]
    constructor
    · exact Or.inr
    · rintro (rfl | h)
      · exact hl
      · exact h
  · rw [if_neg hl]
    simp only [Server.isLive, List.any_append, List.any_cons, List.any_nil, Bool.or_false,
      Bool.or_eq_true, beq_iff_eq]
    exact or_comm

theorem Server.isLive_disconnect (st : Server) (id c : SocketId) :
    ((st.step (.disconnect id)).1).isLive c = (id != c && st.isLive c) := by
  rw [Bool.eq_iff_iff, Server.step_disconnect]
  simp only [Server.isLive, List.any_filter]
  simp only [List.any_eq_true, Bool.and_eq_true, bne_iff_ne, beq_iff_eq, ne_eq]
  constructor
  · rintro ⟨s, hs, h1, h2⟩
    exact ⟨fun h => h1 (h2.trans h.symm), s, hs, h2⟩
  · rintro ⟨h1, s, hs, h2⟩
    exact ⟨s, hs, fun h => h1 (h.symm.trans h2), h2⟩

theorem Server.isLive_event (st : Server) (sender : SocketId) (e : ClientEvent) (c : SocketId) :
    ((st.step (.event sender e)).1).isLive c = st.isLive c := by
  cases e with
  | join u =>
    by_cases hl : st.isLive sender = true
    · rw [Server.step_join_live _ _ _ hl]
      simp only [Server.isLive, List.any_map]
      have : ((fun s : Socket => s.id == c) ∘ fun s => if s.id = sender then s.join u else s)
          = fun s => s.id == c := by
        funext s
        simp only [Function.comp]
        split
        · rw [Socket.join_id]
        · rfl
      rw [this]
    · rw [Server.step_event_dead _ _ _ hl]
  | newPost _ => rw [Server.step_event_state _ _ _ (by intro u hu; cases hu)]
  | sendNotification _ => rw [Server.step_event_state _ _ _ (by intro u hu; cases hu)]
  | sendMessage _ => rw [Server.step_event_state _ _ _ (by intro u hu; cases hu)]

/-- Liveness in the state is liveness read off the history. -/
theorem Server.isLive_after (h : List Input) (c : SocketId) :
    (Server.after h.reverse).isLive c = specLive c h := by
  induction h with
  | nil => rfl
  | cons i h ih =>
    rw [List.reverse_cons, Server.after_concat]
    cases i with
    | connect id => rw [Server.isLive_connect, ih]; rfl
    | disconnect id => rw [Server.isLive_disconnect, ih]; rfl
    | event sender e => rw [Server.isLive_event, ih]; rfl

theorem Server.inRoom_connect (st : Server) (id c : SocketId) (r : Room) :
    ((st.step (.connect id)).1).inRoom c r =
      (if id = c ∧ st.isLive c = false then r == c else st.inRoom c r) := by
  rw [Server.step_connect]
  by_cases hl : st.isLive id = true
  · rw [if_pos hl, if_neg]
    rintro ⟨rfl, h2⟩
    rw [hl] at h2; cases h2
  · rw [if_neg hl]
    by_cases hc : id = c
    · subst hc
      rw [if_pos ⟨rfl, by simpa using hl⟩, Bool.eq_iff_iff]
      have hno : st.inRoom id r = false := by
        rw [Bool.eq_false_iff]
        exact fun h => hl (st.isLive_of_inRoom id r h)
      simp only [Server.inRoom, List.any_append, Bool.or_eq_true] at hno ⊢
      rw [hno]
      simp
    · rw [if_neg (fun h => hc h.1)]
      simp [Server.inRoom, hc]

theorem Server.inRoom_disconnect (st : Server) (id c : SocketId) (r : Room) :
    ((st.step (.disconnect id)).1).inRoom c r = (id != c && st.inRoom c r) := by
  rw [Bool.eq_iff_iff, Server.step_disconnect]
  simp only [Server.inRoom, List.any_filter]
  simp only [List.any_eq_true, Bool.and_eq_true, bne_iff_ne, beq_iff_eq, ne_eq, decide_eq_true_eq]
  constructor
  · rintro ⟨s, hs, h1, h2, h3⟩
    exact ⟨fun h => h1 (h2.trans h.symm), s, hs, h2, h3⟩
  · rintro ⟨h1, s, hs, h2, h3⟩
    exact ⟨s, hs, fun h => h1 (h.symm.trans h2), h2, h3⟩

theorem Server.inRoom_join (st : Server) (sender : SocketId) (u : Room) (c : SocketId) (r : Room) :
    ((st.step (.event sender (.join u))).1).inRoom c r =
      ((sender == c && u == r && st.isLive c) || st.inRoom c r) := by
  by_cases hl : st.isLive sender = true
  · rw [Server.step_join_live _ _ _ hl, Bool.eq_iff_iff]
    simp only [Server.inRoom, Server.isLive, List.any_map, List.any_eq_true, Function.comp,
      Bool.and_eq_true, Bool.or_eq_true, beq_iff_eq, decide_eq_true_eq]
    constructor
    · rintro ⟨s, hs, h1, h2⟩
      by_cases hsid : s.id = sender
      · rw [if_pos hsid] at h1 h2
        rw [Socket.join_id] at h1
        rcases (Socket.mem_join_rooms s u r).mp h2 with h3 | h3
        · exact Or.inr ⟨s, hs, h1, h3⟩
        · exact Or.inl ⟨⟨hsid.symm.trans h1, h3.symm⟩, s, hs, h1⟩
      · rw [if_neg hsid] at h1 h2
        exact Or.inr ⟨s, hs, h1, h2⟩
    · rintro (⟨⟨h1, h2⟩, s, hs, h3⟩ | ⟨s, hs, h1, h2⟩)
      · refine ⟨s, hs, ?_⟩
        rw [if_pos (h3.trans h1.symm), Socket.join_id]
        exact ⟨h3, (Socket.mem_join_rooms s u r).mpr (Or.inr h2.symm)⟩
      · refine ⟨s, hs, ?_⟩
        split
        · rw [Socket.join_id]
          exact ⟨h1, (Socket.mem_join_rooms s u r).mpr (Or.inl h2)⟩
        · exact ⟨h1, h2⟩
  · rw [Server.step_event_dead _ _ _ hl]
    by_cases hc : sender = c
    · subst hc
      simp [Bool.eq_false_iff.mpr hl]
    · simp [hc]

/-- A connection that has joined a room is live. -/
theorem specLive_of_specJoined (c : SocketId) (r : Room) :
    ∀ h : List Input, specJoined c r h = true → specLive c h = true := by
  intro h
  induction h with
  | nil => intro hj; cases hj
  | cons i h ih =>
    cases i with
    | connect id =>
      intro hj
      have h1 : specJoined c r h = true := hj
      show (id == c || specLive c h) = true
      rw [ih h1, Bool.or_true]
    | disconnect id =>
      intro hj
      have h1 : (id != c && specJoined c r h) = true := hj
      rw [Bool.and_eq_true] at h1
      show (id != c && specLive c h) = true
      rw [h1.1, ih h1.2]
      rfl
    | event sender e =>
      cases e with
      | join u =>
        intro hj
        have h1 : ((sender == c && u == r && specLive c h) || specJoined c r h) = true := hj
        show specLive c h = true
        rw [Bool.or_eq_true, Bool.and_eq_true] at h1
        rcases h1 with h2 | h2
        · exact h2.2
        · exact ih h2
      | newPost _ => exact ih
      | sendNotification _ => exact ih
      | sendMessage _ => exact ih

/-- Room membership in the state, read off the history: the connection has
joined the room by a `join` event, or it is live and the room is the one named
by its own id. -/
theorem Server.inRoom_after (h : List Input) (c : SocketId) (r : Room) :
    (Server.after h.reverse).inRoom c r = (specJoined c r h || (specLive c h && r == c)) := by
  induction h with
  | nil => rfl
  | cons i h ih =>
    rw [List.reverse_cons, Server.after_concat]
    cases i with
    | connect id =>
      rw [Server.inRoom_connect, ih, Server.isLive_after]
      show _ = (specJoined c r h || ((id == c || specLive c h) && r == c))
      by_cases hid : id = c
      · cases hl : specLive c h with
        | false =>
          have hj : specJoined c r h = false := by
            rw [Bool.eq_false_iff]
            intro hj
            rw [specLive_of_specJoined c r h hj] at hl
            cases hl
          rw [if_pos ⟨hid, rfl⟩, hj, hid]
          simp
        | true =>
          rw [if_neg (fun hh => by cases hh.2)]
          simp
      · have hb : (id == c) = false := beq_eq_false_iff_ne.mpr hid
        rw [if_neg (fun hh => hid hh.1), hb, Bool.false_or]
    | disconnect id =>
      rw [Server.inRoom_disconnect, ih]
      show _ = ((id != c && specJoined c r h) || ((id != c && specLive c h) && r == c))
      cases (id != c) <;> simp
    | event sender e =>
      cases e with
      | join u =>
        rw [Server.inRoom_join, ih, Server.isLive_after]
        show _ = (((sender == c && u == r && specLive c h) || specJoined c r h) ||
          (specLive c h && r == c))
        rw [Bool.or_assoc]
      | newPost _ => rw [Server.step_event_state _ _ _ (by intro u hu; cases hu), ih]; rfl
      | sendNotification _ => rw [Server.step_event_state _ _ _ (by intro u hu; cases hu), ih]; rfl
      | sendMessage _ => rw [Server.step_event_state _ _ _ (by intro u hu; cases hu), ih]; rfl

/-- With distinct socket ids, the packets of `io.to(r).emit(ev)` that go to
socket `c` are one packet when `c` is in room `r`, and none otherwise. -/
theorem Server.emitTo_filter (st : Server) (hnd : (st.sockets.map (fun s => s.id)).Nodup)
    (r : Room) (ev : Emitted) (c : SocketId) :
    (st.emitTo r ev).filter (fun d => d.target = c) =
      if st.inRoom c r then [{ target := c, event := ev }] else [] := by
  unfold Server.emitTo Server.inRoom
  generalize st.sockets = l at hnd
  induction l with
  | nil => rfl
  | cons s rest ih =>
    rw [List.map_cons, List.nodup_cons] at hnd
    have ih2 := ih hnd.2
    by_cases hr : r ∈ s.rooms
    · by_cases hc : s.id = c
      · have hrest : ∀ x ∈ rest, ¬ (x.id = c) := by
          intro x hx hxc
          exact hnd.1 (List.mem_map.mpr ⟨x, hx, hxc.trans hc.symm⟩)
        have hany : rest.any (fun s => s.id == c && decide (r ∈ s.rooms)) = false := by
          rw [Bool.eq_false_iff]
          intro h
          obtain ⟨x, hx, hx2⟩ := List.any_eq_true.mp h
          simp only [Bool.and_eq_true, beq_iff_eq] at hx2
          exact hrest x hx hx2.1
        rw [hany] at ih2
        simp only [List.filter_cons, hr, decide_True, if_true, List.map_cons, hc,
          List.any_cons, beq_self_eq_true, Bool.true_and, Bool.true_or]
        rw [ih2]
        rfl
      · simp only [List.filter_cons, hr, decide_True, if_true, List.map_cons, hc,
          decide_False, List.any_cons, Bool.true_and, Bool.and_true]
        simp only [beq_eq_false_iff_ne.mpr hc, Bool.false_or]
        simpa using ih2
    · simp only [List.filter_cons, hr, decide_False, List.any_cons, Bool.and_false,
        Bool.false_or]
      simpa using ih2

theorem Server.after_concat_two (h : List Input) (i j : Input) :
    Server.after (h ++ [i, j]) = ((((Server.after h).step i).1).step j).1 := by
  simp [Server.after, List.foldl_append]

theorem Server.step_send_notification (st : Server) (sender : SocketId) (data : NotificationData)
    (h : st.isLive sender = true) :
    (st.step (.event sender (.sendNotification data))).2 =
      st.emitTo data.userId (.notification data.notification) := by
  rw [Server.step_event, if_pos h]; rfl

theorem Server.step_send_message (st : Server) (sender : SocketId) (messageData : MessageData)
    (h : st.isLive sender = true) :
    (st.step (.event sender (.sendMessage messageData))).2 =
      st.emitTo messageData.receiverId (.newMessage messageData) := by
  rw [Server.step_event, if_pos h]; rfl

theorem Socket.join_join (s : Socket) (u : Room) : (s.join u).join u = s.join u := by
  have hmem : u ∈ (s.join u).rooms := (Socket.mem_join_rooms s u u).mpr (Or.inr rfl)
  generalize s.join u = t at hmem
  unfold Socket.join
  rw [if_pos hmem]


/-! ## Claims on `extractHashtags` and `extractMentions` -/

/-- Claim C1. For every content string `T`, `extractHashtags` returns, in
left-to-right order, one element for each index of `T` that holds `#` and is
immediately followed by a word character, and nothing else; the element is the
lowercased form of the run of word characters that starts right after that
`#` and is maximal (the substring there, all word characters, not followed by
a word character); every element is non-empty, lowercase, and has no `#`. -/
theorem extractHashtags_tokens (p : Post) (T : JsString) (h : p.content = some T) :
    extractHashtags p = .ok ((tokenStarts hashMark T).map (fun i => toLowerCase (runAfter T i)))
    ∧ (tokenStarts hashMark T).Pairwise (fun i j => i < j)
    ∧ (∀ i, i ∈ tokenStarts hashMark T ↔
        T[i]? = some hashMark ∧ (T[i + 1]?).any isWordChar = true)
    ∧ (∀ i ∈ tokenStarts hashMark T,
        runAfter T i ≠ [] ∧ (∀ c ∈ runAfter T i, isWordChar c = true) ∧
        (T.drop (i + 1)).take (runAfter T i).length = runAfter T i ∧
        (T[i + 1 + (runAfter T i).length]?).any isWordChar = false)
    ∧ (∀ t ∈ (tokenStarts hashMark T).map (fun i => toLowerCase (runAfter T i)),
        t ≠ [] ∧ toLowerCase t = t ∧ ∀ c ∈ t, c ≠ hashMark ∧ ¬ (65 ≤ c ∧ c ≤ 90)) := by
  have hrun : ∀ i ∈ tokenStarts hashMark T, runAfter T i ≠ [] := by
    intro i hi
    have h2 := ((mem_tokenStarts hashMark T i).mp hi).2
    unfold runAfter
    rw [takeWhile_ne_nil_iff, List.getElem?_drop]
    simpa using h2
  refine ⟨?_, ?_, mem_tokenStarts hashMark T, ?_, ?_⟩
  · unfold extractHashtags
    rw [h]
    exact congrArg Except.ok (extractTokens_eq_map hashMark isWordChar_hashMark T)
  · exact (List.pairwise_lt_range _).filter _
  · intro i hi
    refine ⟨hrun i hi, runAfter_word T i, take_length_takeWhile _, ?_⟩
    have := any_getElem?_takeWhile_length (T.drop (i + 1))
    rw [List.getElem?_drop] at this
    exact this
  · intro t ht
    obtain ⟨i, hi, rfl⟩ := List.mem_map.mp ht
    refine ⟨?_, toLowerCase_idem _, ?_⟩
    · intro hnil
      exact hrun i hi (List.map_eq_nil_iff.mp hnil)
    · intro c hc
      obtain ⟨d, hd, rfl⟩ := List.mem_map.mp hc
      have := lowerUnit_props d (runAfter_word T i d hd)
      exact ⟨this.2.2.1, this.2.1⟩

theorem extractHashtags_tokens_witness :
    (newPost 7 (some scenarioText)).content = some scenarioText ∧
      extractHashtags (newPost 7 (some scenarioText)) =
        .ok ((tokenStarts hashMark scenarioText).map (fun i => toLowerCase (runAfter scenarioText i))) ∧
      (tokenStarts hashMark scenarioText).map (fun i => toLowerCase (runAfter scenarioText i))
        = [lit "world", lit "world"] :=
  ⟨rfl, (extractHashtags_tokens (newPost 7 (some scenarioText)) scenarioText rfl).1, by decide⟩

/-- Claim C2, as stated, fails: for the scenario text the result has two entries,
`world` twice, not one. -/
theorem extractHashtags_scenario_duplicates :
    ∃ ts, extractHashtags (newPost 7 (some scenarioText)) = .ok ts ∧
      ¬ ts.Nodup ∧ ts ≠ [lit "world"] ∧ ts = [lit "world", lit "world"] :=
  ⟨[lit "world", lit "world"], by decide, by decide, by decide, rfl⟩

/-- Claim C2, amended. For every content string `T`, `extractHashtags` keeps one
entry per occurrence: the number of entries is the number of `#`-tokens of `T`,
and a string `t` occurs in the result as many times as there are `#`-tokens
whose lowercased run is `t` (tokens that differ only in letter case give equal
entries, and each keeps its own). For the scenario text the result is
`[world, world]`, whose distinct values are `world` alone. -/
theorem extractHashtags_keeps_occurrences (p : Post) (T : JsString) (h : p.content = some T) :
    ∃ ts, extractHashtags p = .ok ts ∧
      ts.length = (tokenStarts hashMark T).length ∧
      (∀ t, ts.count t =
        (tokenStarts hashMark T).countP (fun i => toLowerCase (runAfter T i) == t)) ∧
      (T = scenarioText → ts = [lit "world", lit "world"] ∧ ts.dedup = [lit "world"]) := by
  refine ⟨extractTokens hashMark T, ?_, ?_, ?_, ?_⟩
  · unfold extractHashtags; rw [h]
  · rw [extractTokens_eq_map hashMark isWordChar_hashMark, List.length_map]
  · intro t
    rw [extractTokens_eq_map hashMark isWordChar_hashMark, List.count_eq_countP, List.countP_map]
    rfl
  · rintro rfl
    exact ⟨by decide, by decide⟩

theorem extractHashtags_keeps_occurrences_witness :
    (newPost 7 (some scenarioText)).content = some scenarioText ∧
      ∃ ts, extractHashtags (newPost 7 (some scenarioText)) = .ok ts ∧
        ts.length = (tokenStarts hashMark scenarioText).length ∧
        (∀ t, ts.count t = (tokenStarts hashMark scenarioText).countP
          (fun i => toLowerCase (runAfter scenarioText i) == t)) ∧
        (scenarioText = scenarioText → ts = [lit "world", lit "world"] ∧ ts.dedup = [lit "world"]) :=
  ⟨rfl, extractHashtags_keeps_occurrences (newPost 7 (some scenarioText)) scenarioText rfl⟩

/-- Claim C3, as stated, fails: on a post whose content is absent both methods
raise a `TypeError`; they do not return the empty collection. -/
theorem extract_absent_content_throws :
    extractHashtags (newPost 7 none) = .error .typeError ∧
      extractHashtags (newPost 7 none) ≠ .ok [] ∧
      extractMentions (newPost 7 none) = .error .typeError ∧
      extractMentions (newPost 7 none) ≠ .ok [] := by decide

/-- Claim C3, amended. On every post whose content is a string both methods
return a result; for the empty string it is the empty collection. On a post
whose content is absent both raise a `TypeError`. -/
theorem extract_total_on_strings (p : Post) :
    (∀ T, ∃ hs ms, extractHashtags { p with content := some T } = .ok hs ∧
        extractMentions { p with content := some T } = .ok ms) ∧
      extractHashtags { p with content := some [] } = .ok [] ∧
      extractMentions { p with content := some [] } = .ok [] ∧
      extractHashtags { p with content := none } = .error .typeError ∧
      extractMentions { p with content := none } = .error .typeError :=
  ⟨fun T => ⟨extractTokens hashMark T, extractTokens atMark T, rfl, rfl⟩, rfl, rfl, rfl, rfl⟩

/-- Claim C4. `extractMentions` is `extractHashtags` with `@` in place of `#`:
on every post it gives what `extractHashtags` gives on the same post with the
two markers exchanged in the content; for the scenario text the mentions are
`[bob]`. -/
theorem extractMentions_eq_extractHashtags_swap (p : Post) :
    extractMentions p = extractHashtags { p with content := p.content.map swapMarkers } ∧
      extractMentions (newPost 7 (some scenarioText)) = .ok [lit "bob"] := by
  refine ⟨?_, by decide⟩
  unfold extractMentions extractHashtags
  cases hc : p.content with
  | none => rfl
  | some T => exact congrArg Except.ok (extractTokens_swapMarkers T)

/-! ## Claims on the `pre('save')` hook -/

/-- Claim C5. For every post whose content is modified: when the content is a
string the hook returns, and afterwards `hashtags` is `extractHashtags` of the
content, which the hook leaves as it is, whatever `hashtags` held before; and
whenever the hook returns, `hashtags` equals `extractHashtags` of the post. -/
theorem preSave_sets_hashtags (p : Post) (hmod : p.contentModified = true) :
    (∀ T, p.content = some T →
      ∃ q, preSave p = .ok q ∧ q.content = some T ∧ q.hashtags = extractTokens hashMark T ∧
        extractHashtags q = .ok q.hashtags ∧
        ∀ old, preSave { p with hashtags := old } = .ok q) ∧
    (∀ q, preSave p = .ok q → extractHashtags q = .ok q.hashtags) := by
  constructor
  · intro T hT
    refine ⟨{ p with hashtags := extractTokens hashMark T }, ?_, hT, rfl, ?_, ?_⟩
    · unfold preSave extractHashtags
      rw [if_pos hmod, hT]
      simp only [castHashtags_extractTokens]
    · unfold extractHashtags
      simp only [hT]
    · intro old
      unfold preSave extractHashtags
      simp only [hmod, hT, if_true, castHashtags_extractTokens]
  · intro q hq
    unfold preSave at hq
    rw [if_pos hmod] at hq
    cases hc : p.content with
    | none =>
      unfold extractHashtags at hq
      rw [hc] at hq
      cases hq
    | some T =>
      unfold extractHashtags at hq
      rw [hc] at hq
      simp only [castHashtags_extractTokens] at hq
      cases hq
      unfold extractHashtags
      simp only [hc]

theorem preSave_sets_hashtags_witness :
    ({ newPost 7 (some scenarioText) with hashtags := [lit "Stale"] }).contentModified = true ∧
      ∃ q, preSave { newPost 7 (some scenarioText) with hashtags := [lit "Stale"] } = .ok q ∧
        q.hashtags = [lit "world", lit "world"] := by
  refine ⟨rfl, ?_⟩
  obtain ⟨q, h1, _, h3, _⟩ :=
    (preSave_sets_hashtags { newPost 7 (some scenarioText) with hashtags := [lit "Stale"] } rfl).1
      scenarioText rfl
  exact ⟨q, h1, h3.trans (by decide)⟩

/-- Claim C6. The hook does not do what the claim, and the comment above the
hook, say of mentions: on a new post with the scenario text the hook returns
with `hashtags` re-derived, while `mentions` is still empty although
`extractMentions` gives `[bob]` on the saved post. -/
theorem preSave_scenario_mentions_empty :
    ∃ q, preSave (newPost 7 (some scenarioText)) = .ok q ∧
      q.hashtags = [lit "world", lit "world"] ∧
      extractMentions q = .ok [lit "bob"] ∧ q.mentions = [] ∧
      q.mentions.filterMap (fun m => m.username) ≠ [lit "bob"] :=
  ⟨{ newPost 7 (some scenarioText) with hashtags := [lit "world", lit "world"] },
    by decide, by decide, by decide, by decide, by decide⟩

/-- Claim C7. For every post whose content is not modified, the hook returns the
post as it was: every field, `hashtags`, `mentions`, `isEdited` and `editedAt`
among them, is unchanged. -/
theorem preSave_unmodified (p : Post) (h : p.contentModified = false) : preSave p = .ok p := by
  unfold preSave
  rw [h]
  rfl

theorem preSave_unmodified_witness :
    ({ newPost 7 (some (lit "old #tag")) with
        hashtags := [lit "kept"], isEdited := true, editedAt := some 1700000000
        contentModified := false }).contentModified = false ∧
      preSave { newPost 7 (some (lit "old #tag")) with
        hashtags := [lit "kept"], isEdited := true, editedAt := some 1700000000
        contentModified := false } =
      .ok { newPost 7 (some (lit "old #tag")) with
        hashtags := [lit "kept"], isEdited := true, editedAt := some 1700000000
        contentModified := false } :=
  ⟨rfl, preSave_unmodified _ rfl⟩

/-! ## Claim on content validation -/

/-- Claim C8. A content string is accepted iff, once trimmed, it is non-empty
and has at most 2000 code units, and then the trimmed string is stored. An
empty or whitespace-only content is rejected with the `required` error, a
trimmed content longer than 2000 with the `maxlength` error; 2001 letters are
rejected, exactly 2000 are accepted. -/
theorem acceptContent_iff (T : JsString) :
    ((∃ s, acceptContent (some T) = .ok s) ↔ trim T ≠ [] ∧ (trim T).length ≤ 2000) ∧
    (trim T ≠ [] ∧ (trim T).length ≤ 2000 → acceptContent (some T) = .ok (trim T)) ∧
    (trim T = [] → acceptContent (some T) = .error (.validationError "Post content is required")) ∧
    (2000 < (trim T).length → acceptContent (some T) =
      .error (.validationError "Post content cannot exceed 2000 characters")) ∧
    acceptContent (some (List.replicate 2001 97)) =
      .error (.validationError "Post content cannot exceed 2000 characters") ∧
    acceptContent (some (List.replicate 2000 97)) = .ok (List.replicate 2000 97) ∧
    acceptContent (some []) = .error (.validationError "Post content is required") ∧
    acceptContent (some (lit " \t\n ")) = .error (.validationError "Post content is required") ∧
    acceptContent none = .error (.validationError "Post content is required") := by
  have hA := acceptContent_some T
  have h97 : isWhiteSpace 97 = false := by decide
  refine ⟨?_, ?_, ?_, ?_, ?_, ?_, by decide, by decide, rfl⟩
  · constructor
    · rintro ⟨s, hs⟩
      rw [hA] at hs
      by_cases h0 : (trim T).length = 0
      · rw [if_pos h0] at hs; cases hs
      · by_cases h1 : 2000 < (trim T).length
        · rw [if_neg h0, if_pos h1] at hs; cases hs
        · exact ⟨fun h => h0 (by rw [h]; rfl), Nat.le_of_not_lt h1⟩
    · rintro ⟨h0, h1⟩
      refine ⟨trim T, ?_⟩
      rw [hA, if_neg (fun h => h0 (List.length_eq_zero.mp h)), if_neg (Nat.not_lt.mpr h1)]
  · rintro ⟨h0, h1⟩
    rw [hA, if_neg (fun h => h0 (List.length_eq_zero.mp h)), if_neg (Nat.not_lt.mpr h1)]
  · intro h0
    rw [hA, if_pos (by rw [h0]; rfl)]
  · intro h1
    rw [hA, if_neg (by omega), if_pos h1]
  · rw [acceptContent_some, trim_replicate _ _ h97, List.length_replicate]
    rfl
  · rw [acceptContent_some, trim_replicate _ _ h97, List.length_replicate]
    rfl

theorem acceptContent_iff_witness :
    (trim (lit "  hello #world \n") ≠ [] ∧ (trim (lit "  hello #world \n")).length ≤ 2000) ∧
      acceptContent (some (lit "  hello #world \n")) = .ok (lit "hello #world") := by
  have hpre : trim (lit "  hello #world \n") ≠ [] ∧ (trim (lit "  hello #world \n")).length ≤ 2000 :=
    ⟨by decide, by decide⟩
  exact ⟨hpre, ((acceptContent_iff (lit "  hello #world \n")).2.1 hpre).trans (by decide)⟩

/-! ## Claims on the socket server -/

/-- Claim C9, as stated, fails: a connection also gets what is sent to the
room named by its own socket id, without any `join` event. After `A` and `B`
connect and nobody joins anything, `B` has joined no room, yet a
`send-notification` from `A` with `userId` equal to the id of `B` is delivered
to `B`; so is a `send-message` with that `receiverId`. -/
theorem send_reaches_own_id_room :
    specJoined "B" "B" [Input.connect "B", Input.connect "A"] = false ∧
      ((Server.after [.connect "A", .connect "B"]).step
          (.event "A" (.sendNotification { userId := "B", notification := "N" }))).2
        = [{ target := "B", event := .notification "N" }] ∧
      ((Server.after [.connect "A", .connect "B"]).step
          (.event "A" (.sendMessage { receiverId := "B", body := "P" }))).2
        = [{ target := "B", event := .newMessage { receiverId := "B", body := "P" } }] := by
  decide

/-- Claim C9, amended. After every history of connections, joins and
disconnections, when a connected socket sends `send-notification` with
`{ userId, notification }`, each connection `c` gets exactly one packet, the
event `notification` with payload `data.notification`, when it has joined room
`userId` by a `join` event or it is live and `userId` is its own socket id, and
no packet otherwise; `send-message` likewise delivers `new-message` with the
whole `messageData` to exactly the connections that joined room `receiverId`
or are live with `receiverId` as their own socket id. -/
theorem send_delivers_to_members (history : List Input) (sender : SocketId)
    (hs : (Server.after history).isLive sender = true)
    (data : NotificationData) (messageData : MessageData) (c : SocketId) :
    (((Server.after history).step (.event sender (.sendNotification data))).2.filter
        (fun d => d.target = c) =
      if specJoined c data.userId history.reverse ||
          (specLive c history.reverse && data.userId == c) then
        [{ target := c, event := .notification data.notification }] else []) ∧
    (((Server.after history).step (.event sender (.sendMessage messageData))).2.filter
        (fun d => d.target = c) =
      if specJoined c messageData.receiverId history.reverse ||
          (specLive c history.reverse && messageData.receiverId == c) then
        [{ target := c, event := .newMessage messageData }] else []) ∧
    (Emitted.notification data.notification).eventName = "notification" ∧
    (Emitted.newMessage messageData).eventName = "new-message" := by
  have hn := Server.after_nodup history
  have hj : ∀ r, (Server.after history).inRoom c r =
      (specJoined c r history.reverse || (specLive c history.reverse && r == c)) := by
    intro r
    have := Server.inRoom_after history.reverse c r
    rwa [List.reverse_reverse] at this
  refine ⟨?_, ?_, rfl, rfl⟩
  · rw [Server.step_send_notification _ _ _ hs, Server.emitTo_filter _ hn, hj]
  · rw [Server.step_send_message _ _ _ hs, Server.emitTo_filter _ hn, hj]

theorem send_delivers_to_members_witness :
    (Server.after [.connect "A", .connect "B", .connect "C", .event "A" (.join "room42"),
        .event "B" (.join "room42")]).isLive "C" = true ∧
      ((Server.after [.connect "A", .connect "B", .connect "C", .event "A" (.join "room42"),
          .event "B" (.join "room42")]).step
          (.event "C" (.sendMessage { receiverId := "room42", body := "P" }))).2
        = [{ target := "A", event := .newMessage { receiverId := "room42", body := "P" } },
           { target := "B", event := .newMessage { receiverId := "room42", body := "P" } }] ∧
      ((Server.after [.connect "A", .connect "B", .connect "C", .event "A" (.join "room42"),
          .event "B" (.join "room42")]).step
          (.event "C" (.sendNotification { userId := "room42", notification := "N" }))).2.filter
          (fun d => d.target = "B")
        = [{ target := "B", event := .notification "N" }] := by
  refine ⟨by decide, by decide, ?_⟩
  exact (send_delivers_to_members
    [.connect "A", .connect "B", .connect "C", .event "A" (.join "room42"),
      .event "B" (.join "room42")] "C" (by decide)
    { userId := "room42", notification := "N" } { receiverId := "room42", body := "P" } "B").1.trans
    (by decide)

/-- Claim C10, as stated, fails: `join` adds a room and removes none. After
`join(u1)` then `join(u2)` the connection is in both rooms, and a notification
then sent to `u1` by another connection is delivered to it. -/
theorem join_twice_keeps_first_room :
    (Server.after [.connect "A", .connect "B", .event "A" (.join "u1"),
        .event "A" (.join "u2")]).inRoom "A" "u1" = true ∧
      specJoined "A" "u1" [Input.event "A" (.join "u2"), Input.event "A" (.join "u1"),
        Input.connect "B", Input.connect "A"] = true ∧
      ((Server.after [.connect "A", .connect "B", .event "A" (.join "u1"),
          .event "A" (.join "u2")]).step
          (.event "B" (.sendNotification { userId := "u1", notification := "N" }))).2
        = [{ target := "A", event := .notification "N" }] := by decide

/-- Claim C10, amended. `join` adds to the rooms of a connection and overwrites
nothing: after every history, a connected socket `c` that handles `join(u1)`
and then `join(u2)` has joined both rooms, so a notification then sent to `u1`
by any connected socket is delivered to `c`, once; and handling `join(u)` twice
leaves the same server state as handling it once. -/
theorem join_accumulates (history : List Input) (c sender : SocketId) (u1 u2 : Room)
    (hc : (Server.after history).isLive c = true)
    (hs : (Server.after history).isLive sender = true) (notification : Payload) :
    specJoined c u1
      (Input.event c (.join u2) :: Input.event c (.join u1) :: history.reverse) = true ∧
    specJoined c u2
      (Input.event c (.join u2) :: Input.event c (.join u1) :: history.reverse) = true ∧
    (Server.after (history ++ [.event c (.join u1), .event c (.join u2)])).inRoom c u1 = true ∧
    (Server.after (history ++ [.event c (.join u1), .event c (.join u2)])).inRoom c u2 = true ∧
    ((Server.after (history ++ [.event c (.join u1), .event c (.join u2)])).step
        (.event sender (.sendNotification { userId := u1, notification := notification }))).2.filter
        (fun d => d.target = c) = [{ target := c, event := .notification notification }] ∧
    Server.after (history ++ [.event c (.join u1), .event c (.join u1)]) =
      Server.after (history ++ [.event c (.join u1)]) := by
  have hlc : specLive c history.reverse = true := by
    rw [← Server.isLive_after, List.reverse_reverse]; exact hc
  have hl1 : (((Server.after history).step (.event c (.join u1))).1).isLive c = true := by
    rw [Server.isLive_event]; exact hc
  have hr1 : (Server.after (history ++ [.event c (.join u1), .event c (.join u2)])).inRoom c u1
      = true := by
    rw [Server.after_concat_two, Server.inRoom_join, Server.inRoom_join, hc]
    simp
  have hls : (Server.after (history ++ [.event c (.join u1), .event c (.join u2)])).isLive sender
      = true := by
    rw [Server.after_concat_two, Server.isLive_event, Server.isLive_event]; exact hs
  refine ⟨?_, ?_, hr1, ?_, ?_, ?_⟩
  · show ((c == c && u2 == u1 && specLive c (Input.event c (.join u1) :: history.reverse)) ||
      ((c == c && u1 == u1 && specLive c history.reverse) || specJoined c u1 history.reverse))
      = true
    rw [hlc]
    simp
  · show ((c == c && u2 == u2 && specLive c (Input.event c (.join u1) :: history.reverse)) ||
      specJoined c u2 (Input.event c (.join u1) :: history.reverse)) = true
    have h2 : specLive c (Input.event c (.join u1) :: history.reverse) = true := hlc
    rw [h2]
    simp
  · rw [Server.after_concat_two, Server.inRoom_join, hl1]
    simp
  · rw [Server.step_send_notification _ _ _ hls, Server.emitTo_filter _ (Server.after_nodup _), hr1]
    rfl
  · rw [Server.after_concat_two, Server.after_concat, Server.step_join_live _ _ _ hl1,
      Server.step_join_live _ _ _ hc]
    simp only [List.map_map]
    congr 1
    apply List.map_congr_left
    intro s _
    simp only [Function.comp]
    by_cases hs : s.id = c
    · rw [if_pos hs, if_pos (by rw [Socket.join_id]; exact hs), Socket.join_join]
    · rw [if_neg hs, if_neg hs]

theorem join_accumulates_witness :
    (Server.after [.connect "A", .connect "B"]).isLive "B" = true ∧
      (Server.after [.connect "A", .connect "B"]).isLive "A" = true ∧
      ((Server.after ([.connect "A", .connect "B"] ++
          [.event "B" (.join "u1"), .event "B" (.join "u2")])).step
          (.event "A" (.sendNotification { userId := "u1", notification := "N" }))).2.filter
          (fun d => d.target = "B") = [{ target := "B", event := .notification "N" }] :=
  ⟨by decide, by decide,
    (join_accumulates [.connect "A", .connect "B"] "B" "A" "u1" "u2" (by decide) (by decide)
      "N").2.2.2.2.1⟩

end SocialNetwork
